import Mathlib

/-!
Verification of the review-orchestration core of the `ai-code-reviewer`
repository (file `src/ai-reviewer.js`, class `AIReviewer`).

JavaScript strings are modelled as `List Char`; JavaScript values that may
be `undefined` are modelled with `Option`; a thrown `Error` is modelled with
`Except`.  Asynchronous sleeps are recorded in explicit traces (a list or a
count of the sleeps performed) so that backoff behaviour can be stated.
-/

set_option maxRecDepth 20000

namespace AiCodeReviewer

/-! ### Characters and JS-style string helpers -/

/-- The backtick character (written via its code so it can be used in
patterns for the markdown-fence regexes). -/
def bt : Char := '\x60'

/-- The pattern of `/``` .../` fences: three backticks. -/
def ticks : List Char := "```".toList

/-- The opening pattern of the first regex in `parseResponse`:
three backticks followed by the letters `json`. -/
def jsonFencePat : List Char := "```json".toList

/-- JS whitespace (the ASCII part of the `\s` regex class and of
`String.prototype.trim`). -/
def jsWs (c : Char) : Bool :=
  c == ' ' || c == '\t' || c == '\n' || c == '\r' || c == '\x0b' || c == '\x0c'

/-- Strip leading and trailing whitespace, as the `\s*` groups of the fence
regexes and `String.prototype.trim` do. -/
def trimChars (l : List Char) : List Char :=
  ((l.dropWhile jsWs).reverse.dropWhile jsWs).reverse

/-- `startsWith pat s` : does `s` begin with `pat`? -/
def startsWith : List Char → List Char → Bool
  | [], _ => true
  | _ :: _, [] => false
  | p :: ps, c :: cs => p == c && startsWith ps cs

/-- Split `s` at the first occurrence of `pat`: returns
`(before, after)` with `s = before ++ pat ++ after` and no occurrence of
`pat` starting inside `before`. -/
def splitFirst (pat : List Char) : List Char → Option (List Char × List Char)
  | [] => if startsWith pat [] then some ([], []) else none
  | c :: rest =>
    if startsWith pat (c :: rest) then some ([], (c :: rest).drop pat.length)
    else
      match splitFirst pat rest with
      | some (pre, post) => some (c :: pre, post)
      | none => none

/-- Semantics of the JS regexes `/```json\s*([\s\S]*?)\s*```/` (with
`openPat = jsonFencePat`) and `/```\s*([\s\S]*?)\s*```/` (with
`openPat = ticks`): find the leftmost occurrence of `openPat` that is
followed by a later `` ``` ``; the lazy group ends at the first such
closing fence and the surrounding greedy `\s*` strip whitespace from both
ends of the captured interior. -/
def matchFence (openPat : List Char) : List Char → Option (List Char)
  | [] => none
  | c :: rest =>
    if startsWith openPat (c :: rest) then
      match splitFirst ticks ((c :: rest).drop openPat.length) with
      | some (inner, _) => some (trimChars inner)
      | none => matchFence openPat rest
    else matchFence openPat rest

/-- The prefix of `s` that ends at the last `\x7d` of `s` (inclusive),
if `s` contains one. -/
def uptoLastBrace : List Char → Option (List Char)
  | [] => none
  | c :: rest =>
    match uptoLastBrace rest with
    | some t => some (c :: t)
    | none => if c == '\x7d' then some [c] else none

/-- Semantics of the JS regex `/\{[\s\S]*\}/` in `parseResponse`: the
substring from the first `\x7b` (that has some `\x7d` after it) through the
last `\x7d` of the text. -/
def braceSpan : List Char → Option (List Char)
  | [] => none
  | c :: rest =>
    if c == '\x7b' then
      match uptoLastBrace rest with
      | some t => some (c :: t)
      | none => braceSpan rest
    else braceSpan rest

/-! ### JSON values and `JSON.parse`

`JSON.parse` is modelled by a recursive-descent parser over `List Char`.
Numbers are kept as their source lexeme (their numeric decoding plays no
role in any claim, which avoids modelling IEEE floats); object members are
kept in textual order. -/

inductive Json where
  | null
  | bool (b : Bool)
  | num (lexeme : List Char)
  | str (s : List Char)
  | arr (elems : List Json)
  | obj (members : List (List Char × Json))

/-- JSON whitespace (the four characters JSON.parse skips). -/
def jsonWs (c : Char) : Bool :=
  c == ' ' || c == '\t' || c == '\n' || c == '\r'

def skipWs (s : List Char) : List Char := s.dropWhile jsonWs

def hexVal (c : Char) : Option Nat :=
  if '0' ≤ c ∧ c ≤ '9' then some (c.toNat - '0'.toNat)
  else if 'a' ≤ c ∧ c ≤ 'f' then some (c.toNat - 'a'.toNat + 10)
  else if 'A' ≤ c ∧ c ≤ 'F' then some (c.toNat - 'A'.toNat + 10)
  else none

def isDigit (c : Char) : Bool := '0' ≤ c && c ≤ '9'

/-- Parse the body of a JSON string after the opening quote, decoding
escapes; returns the decoded string and the rest of the input after the
closing quote. -/
def parseStrBody : Nat → List Char → Option (List Char × List Char)
  | 0, _ => none
  | _, [] => none
  | fuel + 1, c :: rest =>
    if c == '"' then some ([], rest)
    else if c == '\\' then
      match rest with
      | [] => none
      | e :: rest2 =>
        let dec : Option (Char × List Char) :=
          if e == '"' then some ('"', rest2)
          else if e == '\\' then some ('\\', rest2)
          else if e == '/' then some ('/', rest2)
          else if e == 'b' then some ('\x08', rest2)
          else if e == 'f' then some ('\x0c', rest2)
          else if e == 'n' then some ('\n', rest2)
          else if e == 'r' then some ('\r', rest2)
          else if e == 't' then some ('\t', rest2)
          else if e == 'u' then
            match rest2 with
            | h1 :: h2 :: h3 :: h4 :: rest3 =>
              match hexVal h1, hexVal h2, hexVal h3, hexVal h4 with
              | some a, some b, some c2, some d =>
                some (Char.ofNat (((a * 16 + b) * 16 + c2) * 16 + d), rest3)
              | _, _, _, _ => none
            | _ => none
          else none
        match dec with
        | some (ch, rest3) =>
          match parseStrBody fuel rest3 with
          | some (t, r) => some (ch :: t, r)
          | none => none
        | none => none
    else if c.toNat < 32 then none
    else
      match parseStrBody fuel rest with
      | some (t, r) => some (c :: t, r)
      | none => none

/-- Parse a JSON number, returning its lexeme and the rest of the input. -/
def parseNumLex (s : List Char) : Option (List Char × List Char) :=
  let (sign, s1) :=
    match s with
    | '-' :: r => (['-'], r)
    | _ => ([], s)
  match s1 with
  | [] => none
  | c :: r =>
    if c == '0' then
      let (frac, r2) := fracExp r
      some (sign ++ [c] ++ frac, r2)
    else if isDigit c then
      let (ds, r1) := r.span isDigit
      let (frac, r2) := fracExp r1
      some (sign ++ [c] ++ ds ++ frac, r2)
    else none
where
  /-- Optional fraction and exponent parts. -/
  fracExp (s : List Char) : List Char × List Char :=
    let (fr, s1) :=
      match s with
      | '.' :: r =>
        match r.span isDigit with
        | ([], _) => ([], s)
        | (ds, r1) => ('.' :: ds, r1)
      | _ => ([], s)
    let (ex, s2) :=
      match s1 with
      | e :: r =>
        if e == 'e' || e == 'E' then
          match r with
          | sg :: r1 =>
            if sg == '+' || sg == '-' then
              match r1.span isDigit with
              | ([], _) => ([], s1)
              | (ds, r2) => ([e, sg] ++ ds, r2)
            else
              match r.span isDigit with
              | ([], _) => ([], s1)
              | (ds, r2) => (e :: ds, r2)
          | [] => ([], s1)
        else ([], s1)
      | [] => ([], s1)
    (fr ++ ex, s2)

mutual

/-- Parse one JSON value (leading whitespace allowed). -/
def parseValue : Nat → List Char → Option (Json × List Char)
  | 0, _ => none
  | fuel + 1, s =>
    match skipWs s with
    | [] => none
    | c :: rest =>
      if c == '\x7b' then
        match skipWs rest with
        | '\x7d' :: r => some (.obj [], r)
        | r => parseMembers fuel r []
      else if c == '[' then
        match skipWs rest with
        | ']' :: r => some (.arr [], r)
        | r => parseElems fuel r []
      else if c == '"' then
        match parseStrBody (rest.length + 1) rest with
        | some (t, r) => some (.str t, r)
        | none => none
      else if startsWith ("true".toList) (c :: rest) then
        some (.bool true, (c :: rest).drop 4)
      else if startsWith ("false".toList) (c :: rest) then
        some (.bool false, (c :: rest).drop 5)
      else if startsWith ("null".toList) (c :: rest) then
        some (.null, (c :: rest).drop 4)
      else
        match parseNumLex (c :: rest) with
        | some (lx, r) => some (.num lx, r)
        | none => none

/-- Parse the members of a JSON object after its opening brace. -/
def parseMembers : Nat → List Char → List (List Char × Json) →
    Option (Json × List Char)
  | 0, _, _ => none
  | fuel + 1, s, acc =>
    match skipWs s with
    | '"' :: r =>
      match parseStrBody (r.length + 1) r with
      | some (key, r1) =>
        match skipWs r1 with
        | ':' :: r2 =>
          match parseValue fuel r2 with
          | some (v, r3) =>
            match skipWs r3 with
            | ',' :: r4 => parseMembers fuel r4 (acc ++ [(key, v)])
            | '\x7d' :: r4 => some (.obj (acc ++ [(key, v)]), r4)
            | _ => none
          | none => none
        | _ => none
      | none => none
    | _ => none

/-- Parse the elements of a JSON array after its opening bracket. -/
def parseElems : Nat → List Char → List Json → Option (Json × List Char)
  | 0, _, _ => none
  | fuel + 1, s, acc =>
    match parseValue fuel s with
    | some (v, r) =>
      match skipWs r with
      | ',' :: r1 => parseElems fuel r1 (acc ++ [v])
      | ']' :: r1 => some (.arr (acc ++ [v]), r1)
      | _ => none
    | none => none

end

/-- `JSON.parse`: parse a complete JSON document (trailing whitespace
allowed, anything else after the value is an error, signalled as `none`). -/
def jsonParse (s : List Char) : Option Json :=
  match parseValue (2 * s.length + 2) s with
  | some (v, rest) => if (skipWs rest).isEmpty then some v else none
  | none => none

/-- Number of members of a top-level JSON object (`0` for any other value);
used to separate distinct concrete `Json` values. -/
def Json.topMemberCount : Json → Nat
  | .obj ms => ms.length
  | _ => 0

/-! ### `getFallbackReview` and `parseResponse` -/

/-- The fixed fallback review object built by `getFallbackReview`. -/
def fallbackJson : Json :=
  Json.obj [
    ("score".toList, Json.num ['7']),
    ("summary".toList, Json.str ("Review completed with basic analysis".toList)),
    ("issues".toList, Json.arr []),
    ("suggestions".toList, Json.arr [
      Json.str ("Consider adding more tests".toList),
      Json.str ("Ensure proper error handling".toList)]),
    ("security".toList, Json.arr []),
    ("performance".toList, Json.arr []),
    ("dependencies".toList, Json.arr []),
    ("accessibility".toList, Json.arr []),
    ("confidence".toList, Json.num ['5'])]

/-- The fence-stripping phase of `parseResponse`: the `/```json .../` regex
is applied to the raw response, and then the plain `/``` .../` regex is
applied to the (possibly already extracted) result. -/
def cleanFences (response : List Char) : List Char :=
  let c1 :=
    match matchFence jsonFencePat response with
    | some inner => inner
    | none => response
  match matchFence ticks c1 with
  | some inner => inner
  | none => c1

/-- `parseResponse`: strip markdown fences, then `JSON.parse` the
first-brace-to-last-brace substring when one exists, otherwise
`JSON.parse` the trimmed text; any parse failure is caught and yields
`fallbackJson`.  Total by construction (never throws to its caller). -/
def parseResponse (response : List Char) : Json :=
  match braceSpan (cleanFences response) with
  | some sub =>
    match jsonParse sub with
    | some v => v
    | none => fallbackJson
  | none =>
    match jsonParse (trimChars (cleanFences response)) with
    | some v => v
    | none => fallbackJson

/-- The structural parse attempted by `parseResponse` fails: the
brace-to-brace substring fails to parse when one exists, otherwise the
trimmed whole text fails to parse. -/
def parseAttemptsFail (response : List Char) : Bool :=
  match braceSpan (cleanFences response) with
  | some sub => (jsonParse sub).isNone
  | none => (jsonParse (trimChars (cleanFences response))).isNone

/-- `J` wrapped in a ```` ```json ```` fence. -/
def wrapJsonFence (J : List Char) : List Char :=
  jsonFencePat ++ '\n' :: (J ++ '\n' :: ticks)

/-- `J` wrapped in a plain ```` ``` ```` fence. -/
def wrapPlainFence (J : List Char) : List Char :=
  ticks ++ '\n' :: (J ++ '\n' :: ticks)

/-! ### Configuration, commits, and errors -/

/-- A commit record as consumed by `reviewCode`; a `none` field models a
missing / `undefined` property. -/
structure CommitObj where
  hash : Option (List Char)
  message : Option (List Char)
  author : Option (List Char)
  date : Option (List Char)

/-- JS truthiness of a string-or-missing value: `undefined`, `null` and the
empty string are falsy. -/
def truthy : Option (List Char) → Bool
  | some (_ :: _) => true
  | _ => false

/-- The constructor configuration of `AIReviewer`.  A `none` field models a
missing property; `maxTokens = some 0` is falsy in JS and therefore also
selects the `||` default. -/
structure Config where
  aiProvider : Option (List Char)
  model : Option (List Char)
  apiKey : Option (List Char)
  maxTokens : Option Nat
  enableWebSearch : Bool
  enableExtendedThinking : Bool
  enableCitations : Bool

/-- JS `v || d` for string values. -/
def jsOrStr (v : Option (List Char)) (d : List Char) : List Char :=
  match v with
  | some (c :: cs) => c :: cs
  | _ => d

/-- JS `v || d` for numeric values (`0` is falsy). -/
def jsOrNat (v : Option Nat) (d : Nat) : Nat :=
  match v with
  | some n => if n = 0 then d else n
  | none => d

def openaiName : List Char := "openai".toList

def anthropicName : List Char := "anthropic".toList

def googleName : List Char := "google".toList

def flashPat : List Char := "flash".toList

/-- `this.provider = config.aiProvider || 'openai'`. -/
def providerOf (cfg : Config) : List Char :=
  jsOrStr cfg.aiProvider openaiName

/-- `getDefaultModel()`. -/
def getDefaultModel (p : List Char) : List Char :=
  if p == openaiName then "gpt-4.1".toList
  else if p == anthropicName then "claude-sonnet-4-20250514".toList
  else if p == googleName then "gemini-2.5-flash-preview-05-20".toList
  else "gpt-4.1".toList

/-- `this.model = config.model || this.getDefaultModel()`. -/
def modelOf (cfg : Config) : List Char :=
  jsOrStr cfg.model (getDefaultModel (providerOf cfg))

/-- An `Error` thrown inside the reviewer, classified by its origin:
input validation in `reviewCode`, or a transport / transport-format error
from a provider adapter. -/
inductive JsErr where
  | validation (msg : List Char)
  | transport (msg : List Char)

/-! ### Provider request bodies (`callOpenAI` / `callAnthropic` /
`callGoogle`)

Only the fields the claims speak about are modelled; the constant
float-valued sampling settings (`temperature`, `top_p`) are omitted.
`Math.floor(maxTokens * 0.75)` is `mt * 3 / 4` in exact arithmetic
(`0.75` is an exact binary float and `maxTokens` is an integer well below
`2^51`, so the JS computation is exact). -/

structure AnthropicRequest where
  model : List Char
  max_tokens : Nat
  prompt : List Char
  /-- `budget_tokens` of the `thinking` block, when the block is present. -/
  thinking : Option Nat
  webSearchTool : Bool

/-- The request body built by `callAnthropic`. -/
def anthropicRequest (cfg : Config) (prompt : List Char) : AnthropicRequest :=
  let mt := jsOrNat cfg.maxTokens 64000
  { model := modelOf cfg
    max_tokens := mt
    prompt := prompt
    thinking :=
      if cfg.enableExtendedThinking then some (min 48000 (mt * 3 / 4)) else none
    webSearchTool := cfg.enableWebSearch }

structure GoogleThinkingConfig where
  includeThoughts : Bool
  thinkingBudget : Option Nat

structure GoogleRequest where
  maxOutputTokens : Nat
  prompt : List Char
  thinkingConfig : Option GoogleThinkingConfig

/-- The request body built by `callGoogle`: `thinkingConfig` is attached
whenever extended thinking is enabled, but a `thinkingBudget` is added only
when the model name contains `flash`. -/
def googleRequest (cfg : Config) (prompt : List Char) : GoogleRequest :=
  let mt := jsOrNat cfg.maxTokens 64000
  { maxOutputTokens := mt
    prompt := prompt
    thinkingConfig :=
      if cfg.enableExtendedThinking then
        some { includeThoughts := true
               thinkingBudget :=
                 if (splitFirst flashPat (modelOf cfg)).isSome then
                   some (min 48000 (mt * 3 / 4))
                 else none }
      else none }

/-- The request body built by `callOpenAI`: there is no reasoning/thinking
field at all in this body (the structure faithfully has no such field). -/
structure OpenAIRequest where
  model : List Char
  max_tokens : Nat
  prompt : List Char
  webSearchTool : Bool

def openAIRequest (cfg : Config) (prompt : List Char) : OpenAIRequest :=
  { model := modelOf cfg
    max_tokens := jsOrNat cfg.maxTokens 32768
    prompt := prompt
    webSearchTool := cfg.enableWebSearch }

/-! ### Provider response extraction -/

/-- One element of the `content` array of an Anthropic response. -/
structure AnthropicBlock where
  btype : List Char
  text : List Char

/-- The `content` field of an Anthropic response: an array of typed blocks,
a plain string, or anything else (missing / other shape). -/
inductive AnthropicContent where
  | blocks (bs : List AnthropicBlock)
  | strVal (s : List Char)
  | other

/-- `Array.prototype.join(' ')`. -/
def joinSpace (xs : List (List Char)) : List Char := List.intercalate [' '] xs

def isTextBlock (b : AnthropicBlock) : Bool := b.btype == ("text".toList)

/-- The response handling at the end of `callAnthropic`: keep the blocks
whose `type` is `'text'` (in order), join their texts with a single space;
a plain-string `content` is returned as is; any other shape throws
`'Unexpected response format from Anthropic API'`. -/
def extractAnthropicText : AnthropicContent → Except JsErr (List Char)
  | .blocks bs => .ok (joinSpace ((bs.filter isTextBlock).map AnthropicBlock.text))
  | .strVal s => .ok s
  | .other =>
    .error (.transport ("Unexpected response format from Anthropic API".toList))

/-- One element of `candidates[0].content.parts` of a Google response. -/
structure GooglePart where
  text : Option (List Char)
  thought : Bool

/-- `part.text && !part.thought`. -/
def isProsePart (p : GooglePart) : Bool := truthy p.text && !p.thought

/-- The response handling at the end of `callGoogle`: when the parts array
is present, keep the parts with truthy `text` and falsy `thought` and join
them with a single space; otherwise the JS code dereferences
`candidates[0].content.parts[0].text` and throws a `TypeError`. -/
def extractGoogleText : Option (List GooglePart) → Except JsErr (List Char)
  | some parts =>
    .ok (joinSpace ((parts.filter isProsePart).map (fun p => p.text.getD [])))
  | none => .error (.transport ("TypeError: candidates or parts missing".toList))

/-! ### `reviewCode`

The provider adapter call is an oracle parameter (its outcome: the raw text
returned, or the thrown error).  The second component of the result counts
the provider calls made (0 or 1), so that fail-fast behaviour is visible. -/

def invalidDiffMsg : List Char :=
  "Invalid diff: must be a non-empty string".toList

def invalidCommitMsg : List Char :=
  "Invalid commit: must be an object with hash, message, author, and date".toList

def missingFieldsMsg : List Char :=
  "Invalid commit: missing required fields (hash, message)".toList

def noApiKeyMsg : List Char :=
  "AI API key not found. Set AI_API_KEY environment variable.".toList

def reviewCode (cfg : Config) (oracle : Except JsErr (List Char))
    (diff : Option (List Char)) (commit : Option CommitObj) :
    Except JsErr Json × Nat :=
  if !truthy diff then
    (.error (.validation invalidDiffMsg), 0)
  else
    match commit with
    | none => (.error (.validation invalidCommitMsg), 0)
    | some c =>
      if !truthy c.hash || !truthy c.message then
        (.error (.validation missingFieldsMsg), 0)
      else if !truthy cfg.apiKey then
        (.error (.validation noApiKeyMsg), 0)
      else
        -- try block: adapter dispatch; every error raised inside it
        -- (transport errors and the unsupported-provider error alike)
        -- is caught and turned into the fallback review
        let p := providerOf cfg
        if p == openaiName || p == anthropicName || p == googleName then
          match oracle with
          | .ok raw => (.ok (parseResponse raw), 1)
          | .error _ => (.ok fallbackJson, 1)
        else
          (.ok fallbackJson, 0)

/-! ### `reviewCodeWithRetry` -/

/-- The retry loop of `reviewCodeWithRetry`:
`for (attempt = 1; attempt <= maxRetries; attempt++)`.  The trace records
the result (`none` for the `undefined` fall-through when the loop body
never returns), the number of attempts made, and the list of backoff
sleeps (`2^attempt * 1000` ms each) that were performed. -/
def retryAux (call : Nat → Except JsErr Json) (maxRetries : Nat) :
    Nat → Nat → List Nat → Option Json × Nat × List Nat
  | 0, attempt, sleeps => (none, attempt - 1, sleeps)
  | fuel + 1, attempt, sleeps =>
    match call attempt with
    | .ok v => (some v, attempt, sleeps)
    | .error _ =>
      if attempt = maxRetries then (some fallbackJson, attempt, sleeps)
      else retryAux call maxRetries fuel (attempt + 1) (sleeps ++ [2 ^ attempt * 1000])

/-- `reviewCodeWithRetry(diff, commit, maxRetries)` with an attempt-indexed
adapter oracle (the adapter outcome seen by the `reviewCode` call of each
attempt). -/
def reviewCodeWithRetry (cfg : Config) (oracle : Nat → Except JsErr (List Char))
    (diff : Option (List Char)) (commit : Option CommitObj) (maxRetries : Nat) :
    Option Json × Nat × List Nat :=
  retryAux (fun n => (reviewCode cfg (oracle n) diff commit).1) maxRetries maxRetries 1 []

/-! ### Sequential and batch processing -/

/-- Input of one commit review: the commit, its diff, and the adapter
outcome its provider call would have. -/
structure ReviewItem where
  oracle : Except JsErr (List Char)
  diff : Option (List Char)
  commit : CommitObj

/-- The single (non-retrying) review of one item. -/
def reviewOne (cfg : Config) (it : ReviewItem) : Except JsErr Json :=
  (reviewCode cfg it.oracle it.diff (some it.commit)).1

/-- `reviewCommitsSequentially`: review each `(commit, diff)` pair in order
through `reviewCode`, collecting results in input order; a thrown error
(validation) aborts and propagates. -/
def reviewCommitsSequentially (cfg : Config) :
    List ReviewItem → Except JsErr (List Json)
  | [] => .ok []
  | it :: rest =>
    match reviewOne cfg it with
    | .error e => .error e
    | .ok v =>
      match reviewCommitsSequentially cfg rest with
      | .ok vs => .ok (v :: vs)
      | .error e => .error e

/-- Outcome of one `GET /v1/batches/:id` poll attempt, as observed by the
loop body of `pollBatchResults`: `completed` carries
`results[i].response.body.content[0].text` for each result; `failed` is the
`status === 'failed'` case; `pending` is any other status; `httpError` is a
rejected GET. -/
inductive PollOutcome where
  | completed (texts : List (List Char))
  | failed
  | pending
  | httpError

def isPending : PollOutcome → Bool
  | .pending => true
  | _ => false

/-- Number of inter-poll sleeps performed over `fuel` consecutive attempts
starting at `attempt`: only a `pending` attempt reaches the
`await setTimeout(pollInterval)` line — a `failed` status throws past it
(and is caught by the loop's catch), and an HTTP error skips it too. -/
def sleepCount (oracle : Nat → PollOutcome) : Nat → Nat → Nat
  | _, 0 => 0
  | attempt, fuel + 1 =>
    (if isPending (oracle attempt) then 1 else 0) + sleepCount oracle (attempt + 1) fuel

/-- The polling loop of `pollBatchResults`
(`for (attempt = 0; attempt < maxAttempts; attempt++)` with the whole body
inside `try { .. } catch { console.warn(..) }`).  The trace records the
outcome (`.error ()` is the `'Batch processing timed out'` throw after the
loop), the number of attempts made, and the number of 2000 ms sleeps. -/
def pollAux (oracle : Nat → PollOutcome) :
    Nat → Nat → Nat → Except Unit (List Json) × Nat × Nat
  | 0, attempt, sleeps => (.error (), attempt, sleeps)
  | fuel + 1, attempt, sleeps =>
    match oracle attempt with
    | .completed texts => (.ok (texts.map parseResponse), attempt + 1, sleeps)
    | .pending => pollAux oracle fuel (attempt + 1) (sleeps + 1)
    | .failed => pollAux oracle fuel (attempt + 1) sleeps
    | .httpError => pollAux oracle fuel (attempt + 1) sleeps

/-- `pollBatchResults` with its hard-coded `maxAttempts = 30`. -/
def pollBatchResults (oracle : Nat → PollOutcome) :
    Except Unit (List Json) × Nat × Nat :=
  pollAux oracle 30 0 0

/-- An error escaping the multi-commit entry points: an `Error` thrown by
`reviewCode` (validation), or the `'Batch processing timed out'` error. -/
inductive ReviewErr where
  | js (e : JsErr)
  | timeout

/-- A call of `reviewCommitsSequentially`, with its thrown error (if any)
lifted into the error type of the multi-commit entry points. -/
def sequentialLifted (cfg : Config) (items : List ReviewItem) :
    Except ReviewErr (List Json) :=
  match reviewCommitsSequentially cfg items with
  | .ok rs => .ok rs
  | .error e => .error (.js e)

/-- `batchReviewAnthropic`: submit the batch; a rejected submission is
caught and falls back to `reviewCommitsSequentially` (never back into batch
mode).  A successful submission executes
`return this.pollBatchResults(..)` — the promise is returned *without*
`await`, so a rejection of the polling promise (its timeout throw) is NOT
intercepted by the surrounding catch and propagates to the caller. -/
def batchReviewAnthropic (cfg : Config) (submitErr : Option JsErr)
    (pollOracle : Nat → PollOutcome) (items : List ReviewItem) :
    Except ReviewErr (List Json) :=
  match submitErr with
  | none =>
    match (pollBatchResults pollOracle).1 with
    | .ok results => .ok results
    | .error () => .error .timeout
  | some _ => sequentialLifted cfg items

/-- `reviewMultipleCommits`: the batch path is taken exactly when the
provider is `'anthropic'` and more than one commit is given; otherwise the
sequential path is used. -/
def reviewMultipleCommits (cfg : Config) (submitErr : Option JsErr)
    (pollOracle : Nat → PollOutcome) (items : List ReviewItem) :
    Except ReviewErr (List Json) :=
  if providerOf cfg == anthropicName && decide (1 < items.length) then
    batchReviewAnthropic cfg submitErr pollOracle items
  else
    sequentialLifted cfg items

/-! ### Concrete fixtures used by witnesses and counterexamples -/

/-- The test commit of the repository's own demo scripts. -/
def exCommit : CommitObj :=
  { hash := some ("abc1234".toList)
    message := some ("Add user data endpoint".toList)
    author := some ("Test User <test@example.com>".toList)
    date := none }

def exDiff : Option (List Char) := some ("+const x = 1;".toList)

def cfgAnthropic : Config :=
  { aiProvider := some ("anthropic".toList), model := none
    apiKey := some ("sk-test".toList), maxTokens := none
    enableWebSearch := false, enableExtendedThinking := false
    enableCitations := false }

def cfgOpenAI : Config :=
  { aiProvider := some ("openai".toList), model := none
    apiKey := some ("sk-test".toList), maxTokens := none
    enableWebSearch := false, enableExtendedThinking := false
    enableCitations := false }

def cfgMistral : Config :=
  { aiProvider := some ("mistral".toList), model := none
    apiKey := some ("sk-test".toList), maxTokens := none
    enableWebSearch := false, enableExtendedThinking := false
    enableCitations := false }

/-- An item whose provider call fails with a transport error. -/
def itemErr : ReviewItem :=
  { oracle := .error (.transport ("HTTP 500".toList))
    diff := exDiff, commit := exCommit }

/-! ### C3 -/

/-- C3: `parseResponse` never throws to its caller (it is a total function
into `Json` by construction), and whenever the structural parse it attempts
fails, it returns exactly the fixed fallback review of `getFallbackReview`:
score 7, summary "Review completed with basic analysis", no issues, the two
generic suggestions, empty security / performance / dependencies /
accessibility lists, confidence 5. -/
theorem parseResponse_total_with_fixed_fallback (s : List Char)
    (h : parseAttemptsFail s = true) : parseResponse s = fallbackJson := by
  unfold parseResponse
  unfold parseAttemptsFail at h
  cases hb : braceSpan (cleanFences s) with
  | some sub =>
    simp only [hb] at h ⊢
    cases hj : jsonParse sub with
    | some v => simp [hj] at h
    | none => simp [hj]
  | none =>
    simp only [hb] at h ⊢
    cases hj : jsonParse (trimChars (cleanFences s)) with
    | some v => simp [hj] at h
    | none => simp [hj]

/-- Witness for C3 at a concrete non-JSON model answer. -/
theorem parseResponse_total_with_fixed_fallback_witness :
    parseAttemptsFail ("The code looks good to me!".toList) = true ∧
    parseResponse ("The code looks good to me!".toList) = fallbackJson :=
  ⟨rfl, parseResponse_total_with_fixed_fallback _ rfl⟩

/-! ### C8 -/

/-- C8: a call of `reviewCode` (the single-review entry point) with a
missing or malformed diff, a missing or malformed commit (no hash or no
message), or a missing/empty API key throws an input-validation error
immediately to its caller, making no provider HTTP call (the call counter
is 0, and the result does not depend on the adapter oracle); no retry
happens inside this call. -/
theorem reviewCode_validation_fail_fast (cfg : Config)
    (oracle : Except JsErr (List Char)) (diff : Option (List Char))
    (commit : Option CommitObj)
    (h : truthy diff = false ∨ commit = none ∨
      (∃ c, commit = some c ∧
        (truthy c.hash = false ∨ truthy c.message = false)) ∨
      truthy cfg.apiKey = false) :
    ∃ msg, reviewCode cfg oracle diff commit = (.error (.validation msg), 0) := by
  by_cases hd : truthy diff
  · cases commit with
    | none => exact ⟨invalidCommitMsg, by simp [reviewCode, hd]⟩
    | some c =>
      by_cases hh : truthy c.hash
      · by_cases hm : truthy c.message
        · by_cases hk : truthy cfg.apiKey
          · exfalso
            rcases h with h | h | ⟨c', hc', h⟩ | h
            · rw [hd] at h; exact Bool.noConfusion h
            · exact Option.noConfusion h
            · cases Option.some.inj hc'
              rcases h with h | h
              · rw [hh] at h; exact Bool.noConfusion h
              · rw [hm] at h; exact Bool.noConfusion h
            · rw [hk] at h; exact Bool.noConfusion h
          · exact ⟨noApiKeyMsg, by simp [reviewCode, hd, hh, hm, hk]⟩
        · exact ⟨missingFieldsMsg, by simp [reviewCode, hd, hh, hm]⟩
      · exact ⟨missingFieldsMsg, by simp [reviewCode, hd, hh]⟩
  · exact ⟨invalidDiffMsg, by simp [reviewCode, hd]⟩

/-- Witness for C8: a missing diff is rejected with no provider call. -/
theorem reviewCode_validation_fail_fast_witness :
    ∃ msg, reviewCode cfgAnthropic (.ok []) none (some exCommit) =
      (.error (.validation msg), 0) :=
  reviewCode_validation_fail_fast cfgAnthropic (.ok []) none (some exCommit)
    (Or.inl rfl)

/-! ### C9 -/

/-- C9: with a valid diff, a valid commit and a non-empty API key, if the
configured provider is none of `openai` / `anthropic` / `google`, the
internal `Unsupported AI provider` throw is swallowed by the try/catch of
`reviewCode`: the call returns the fixed fallback review (and performs no
provider HTTP call) instead of surfacing the error. -/
theorem reviewCode_unsupported_provider_fallback (cfg : Config)
    (oracle : Except JsErr (List Char)) (diff : Option (List Char))
    (c : CommitObj)
    (hd : truthy diff = true) (hh : truthy c.hash = true)
    (hm : truthy c.message = true) (hk : truthy cfg.apiKey = true)
    (hp1 : providerOf cfg ≠ openaiName)
    (hp2 : providerOf cfg ≠ anthropicName)
    (hp3 : providerOf cfg ≠ googleName) :
    reviewCode cfg oracle diff (some c) = (.ok fallbackJson, 0) := by
  simp only [reviewCode, hd, hh, hm, hk, Bool.not_true, Bool.false_or,
    Bool.or_self, if_false, Bool.false_eq_true, if_neg]
  simp
  intro hor
  rcases hor with (h | h) | h
  exacts [absurd h hp1, absurd h hp2, absurd h hp3]

/-- Witness for C9 at provider `mistral`. -/
theorem reviewCode_unsupported_provider_fallback_witness :
    reviewCode cfgMistral (.ok ("x".toList)) exDiff (some exCommit) =
      (.ok fallbackJson, 0) :=
  reviewCode_unsupported_provider_fallback cfgMistral (.ok ("x".toList))
    exDiff exCommit rfl rfl rfl rfl (by decide) (by decide) (by decide)

/-! ### C1 -/

/-- C1 counterexample: with a provider adapter that throws a transport
error on every call and `maxRetries = 3`, `reviewCodeWithRetry` makes
exactly ONE attempt (not 3) and performs NO backoff sleeps, because
`reviewCode` catches the adapter error internally and returns the fallback
review as a successful result. -/
theorem reviewCodeWithRetry_attempts_counterexample :
    reviewCodeWithRetry cfgAnthropic
        (fun _ => .error (.transport ("HTTP 500".toList)))
        exDiff (some exCommit) 3 = (some fallbackJson, 1, []) ∧
    ¬ ((reviewCodeWithRetry cfgAnthropic
        (fun _ => .error (.transport ("HTTP 500".toList)))
        exDiff (some exCommit) 3).2.1 = 3 ∧
       (reviewCodeWithRetry cfgAnthropic
        (fun _ => .error (.transport ("HTTP 500".toList)))
        exDiff (some exCommit) 3).2.2 = [2000, 4000]) :=
  ⟨rfl, by intro hc; exact absurd hc.1 (by decide)⟩

/-- C1 amended: for valid inputs and a known provider, if the provider
adapter throws on every call, `reviewCodeWithRetry(diff, commit, 3)` makes
exactly one attempt, performs no backoff sleep, and returns the fallback
ReviewResult instead of propagating the error: the transport error is
swallowed inside `reviewCode` (which returns the fallback), so the retry
loop never observes an adapter failure and the 2^attempt * 1000 ms backoff
never runs. -/
theorem reviewCodeWithRetry_always_throwing_adapter (cfg : Config)
    (oracle : Nat → Except JsErr (List Char)) (diff : Option (List Char))
    (c : CommitObj)
    (hd : truthy diff = true) (hh : truthy c.hash = true)
    (hm : truthy c.message = true) (hk : truthy cfg.apiKey = true)
    (hp : providerOf cfg = openaiName ∨
      providerOf cfg = anthropicName ∨ providerOf cfg = googleName)
    (herr : ∀ n, ∃ e, oracle n = .error (.transport e)) :
    reviewCodeWithRetry cfg oracle diff (some c) 3 = (some fallbackJson, 1, []) := by
  obtain ⟨e1, he1⟩ := herr 1
  have hcall : (reviewCode cfg (oracle 1) diff (some c)).1 = .ok fallbackJson := by
    rcases hp with hp | hp | hp <;> simp [reviewCode, hd, hh, hm, hk, hp, he1]
  unfold reviewCodeWithRetry retryAux
  simp [hcall]

/-- Witness for C1 (amended) at a concrete always-failing adapter. -/
theorem reviewCodeWithRetry_always_throwing_adapter_witness :
    reviewCodeWithRetry cfgAnthropic
        (fun _ => .error (.transport ("HTTP 500".toList)))
        exDiff (some exCommit) 3 = (some fallbackJson, 1, []) :=
  reviewCodeWithRetry_always_throwing_adapter cfgAnthropic _ exDiff exCommit
    rfl rfl rfl rfl (Or.inr (Or.inl rfl)) (fun _ => ⟨"HTTP 500".toList, rfl⟩)

/-! ### C6 -/

/-- The Gemini 2.5 Pro configuration of the repository's debug script. -/
def cfgGeminiPro : Config :=
  { aiProvider := some ("google".toList)
    model := some ("gemini-2.5-pro-preview-05-06".toList)
    apiKey := some ("sk-test".toList), maxTokens := some 4000
    enableWebSearch := false, enableExtendedThinking := true
    enableCitations := false }

/-- The Gemini 2.5 Flash configuration of the repository's debug script. -/
def cfgGeminiFlash : Config :=
  { aiProvider := some ("google".toList)
    model := some ("gemini-2.5-flash-preview-05-20".toList)
    apiKey := some ("sk-test".toList), maxTokens := some 4000
    enableWebSearch := false, enableExtendedThinking := true
    enableCitations := false }

/-- C6 counterexample: with extended thinking enabled and
`maxTokens = 4000 > 0`, the Google adapter's request body for a non-flash
model carries a `thinkingConfig` WITHOUT any thinking budget — no
`min(48000, floor(maxTokens * 0.75))` budget is included, contradicting the
claim that every adapter always includes it. -/
theorem thinking_budget_counterexample :
    cfgGeminiPro.enableExtendedThinking = true ∧
    cfgGeminiPro.maxTokens = some 4000 ∧
    (googleRequest cfgGeminiPro []).thinkingConfig =
      some { includeThoughts := true, thinkingBudget := none } :=
  ⟨rfl, rfl, rfl⟩

/-- C6 amended: with extended thinking enabled and `maxTokens = k > 0`, the
Anthropic adapter always includes the budget `min(48000, floor(k * 0.75))`,
which is strictly below `k`; the Google adapter includes that same budget
only when the model name contains `flash` (otherwise its `thinkingConfig`
has no budget); the OpenAI request body has no thinking field at all. -/
theorem thinking_budget_formula (cfg : Config) (prompt : List Char) (k : Nat)
    (hth : cfg.enableExtendedThinking = true)
    (hmt : cfg.maxTokens = some k) (hk : 0 < k) :
    (anthropicRequest cfg prompt).thinking = some (min 48000 (k * 3 / 4)) ∧
    min 48000 (k * 3 / 4) < k ∧
    ((splitFirst flashPat (modelOf cfg)).isSome = true →
      (googleRequest cfg prompt).thinkingConfig =
        some { includeThoughts := true,
               thinkingBudget := some (min 48000 (k * 3 / 4)) }) ∧
    ((splitFirst flashPat (modelOf cfg)).isSome = false →
      (googleRequest cfg prompt).thinkingConfig =
        some { includeThoughts := true, thinkingBudget := none }) := by
  have hmt' : jsOrNat cfg.maxTokens 64000 = k := by
    rw [hmt]; simp [jsOrNat, Nat.pos_iff_ne_zero.mp hk]
  have h34 : k * 3 / 4 < k :=
    (Nat.div_lt_iff_lt_mul (by norm_num)).mpr (by omega)
  refine ⟨?_, lt_of_le_of_lt (min_le_right _ _) h34, ?_, ?_⟩
  · simp [anthropicRequest, hmt', hth]
  · intro hf
    cases hsp : splitFirst flashPat (modelOf cfg) with
    | none => rw [hsp] at hf; simp at hf
    | some p => simp [googleRequest, hmt', hth, hsp]
  · intro hf
    cases hsp : splitFirst flashPat (modelOf cfg) with
    | none => simp [googleRequest, hmt', hth, hsp]
    | some p => rw [hsp] at hf; simp at hf

/-- Witness for C6 (amended) at the concrete flash configuration. -/
theorem thinking_budget_formula_witness :
    (anthropicRequest cfgGeminiFlash []).thinking =
      some (min 48000 (4000 * 3 / 4)) ∧
    min 48000 (4000 * 3 / 4) < 4000 ∧
    ((splitFirst flashPat (modelOf cfgGeminiFlash)).isSome = true →
      (googleRequest cfgGeminiFlash []).thinkingConfig =
        some { includeThoughts := true,
               thinkingBudget := some (min 48000 (4000 * 3 / 4)) }) ∧
    ((splitFirst flashPat (modelOf cfgGeminiFlash)).isSome = false →
      (googleRequest cfgGeminiFlash []).thinkingConfig =
        some { includeThoughts := true, thinkingBudget := none }) :=
  thinking_budget_formula cfgGeminiFlash [] 4000 rfl rfl (by decide)

/-! ### C7 -/

/-- C7 counterexample: an Anthropic payload whose content array holds only
a thinking block — so no text content at all — does NOT raise the
transport-format error: the adapter returns the empty string. -/
theorem adapter_text_extraction_counterexample :
    extractAnthropicText (.blocks
      [{ btype := "thinking".toList, text := "internal reasoning".toList }]) =
      .ok [] ∧
    extractAnthropicText (.blocks
      [{ btype := "thinking".toList, text := "internal reasoning".toList }]) ≠
      .error (.transport ("Unexpected response format from Anthropic API".toList)) :=
  ⟨rfl, fun h => Except.noConfusion h⟩

/-- C7 amended: both adapters return the space-joined concatenation, in
original order, of exactly the text-typed blocks (thought/reasoning blocks
are discarded); but when the block list contains no text block the result
is the empty string, not an error — the Anthropic transport-format error is
raised only when the content field is neither a block array nor a plain
string. -/
theorem adapter_text_extraction :
    (∀ bs : List AnthropicBlock,
      extractAnthropicText (.blocks bs) =
        .ok (joinSpace ((bs.filter isTextBlock).map AnthropicBlock.text))) ∧
    (∀ bs : List AnthropicBlock, bs.filter isTextBlock = [] →
      extractAnthropicText (.blocks bs) = .ok []) ∧
    (∀ s, extractAnthropicText (.strVal s) = .ok s) ∧
    (∀ (c : AnthropicContent) (e : JsErr),
      extractAnthropicText c = .error e → c = .other) ∧
    (∀ ps : List GooglePart,
      extractGoogleText (some ps) =
        .ok (joinSpace ((ps.filter isProsePart).map (fun p => p.text.getD [])))) := by
  refine ⟨fun bs => rfl, ?_, fun s => rfl, ?_, fun ps => rfl⟩
  · intro bs h
    simp [extractAnthropicText, h, joinSpace, List.intercalate]
  · intro c e h
    cases c with
    | blocks bs => exact Except.noConfusion h
    | strVal s => exact Except.noConfusion h
    | other => rfl

/-- Witness for C7 (amended) at a concrete mixed block list. -/
theorem adapter_text_extraction_witness :
    extractAnthropicText (.blocks
      [{ btype := "thinking".toList, text := "let me think".toList },
       { btype := "text".toList, text := "a".toList },
       { btype := "tool_use".toList, text := "u".toList },
       { btype := "text".toList, text := "b".toList }]) = .ok ("a b".toList) ∧
    extractAnthropicText (.blocks
      [{ btype := "redacted_thinking".toList, text := "x".toList }]) = .ok [] := by
  constructor
  · rw [adapter_text_extraction.1]; rfl
  · exact adapter_text_extraction.2.1 _ rfl

/-! ### C10 -/

/-- If no attempt in the window `[attempt, attempt + fuel)` reports
`completed`, the polling loop runs through the whole window (errored and
`failed` attempts merely count against the budget) and then times out,
having slept only on the `pending` attempts. -/
theorem pollAux_no_complete (oracle : Nat → PollOutcome) :
    ∀ (fuel attempt sleeps : Nat),
      (∀ i, attempt ≤ i → i < attempt + fuel → ∀ ts, oracle i ≠ .completed ts) →
      pollAux oracle fuel attempt sleeps =
        (.error (), attempt + fuel, sleeps + sleepCount oracle attempt fuel) := by
  intro fuel
  induction fuel with
  | zero => intro attempt sleeps h; simp [pollAux, sleepCount]
  | succ fuel ih =>
    intro attempt sleeps h
    have hnext : ∀ i, attempt + 1 ≤ i → i < attempt + 1 + fuel →
        ∀ ts, oracle i ≠ .completed ts :=
      fun i h1 h2 ts => h i (by omega) (by omega) ts
    cases ho : oracle attempt with
    | completed ts => exact absurd ho (h attempt le_rfl (by omega) ts)
    | pending =>
      simp only [pollAux, ho]
      rw [ih (attempt + 1) (sleeps + 1) hnext]
      simp [Prod.mk.injEq, sleepCount, ho, isPending]
      omega
    | failed =>
      simp only [pollAux, ho]
      rw [ih (attempt + 1) sleeps hnext]
      simp [Prod.mk.injEq, sleepCount, ho, isPending]
      omega
    | httpError =>
      simp only [pollAux, ho]
      rw [ih (attempt + 1) sleeps hnext]
      simp [Prod.mk.injEq, sleepCount, ho, isPending]
      omega

/-- A successful exit of the polling loop can only come from a `completed`
status observed at some attempt inside the budget window. -/
theorem pollAux_ok_completed (oracle : Nat → PollOutcome) :
    ∀ (fuel attempt sleeps : Nat) (rs : List Json) (a s : Nat),
      pollAux oracle fuel attempt sleeps = (.ok rs, a, s) →
      ∃ j, attempt ≤ j ∧ j < attempt + fuel ∧
        ∃ ts, oracle j = .completed ts ∧ rs = ts.map parseResponse := by
  intro fuel
  induction fuel with
  | zero => intro attempt sleeps rs a s h; simp [pollAux, Prod.mk.injEq] at h
  | succ fuel ih =>
    intro attempt sleeps rs a s h
    cases ho : oracle attempt with
    | completed ts =>
      simp only [pollAux, ho, Prod.mk.injEq, Except.ok.injEq] at h
      exact ⟨attempt, le_rfl, by omega, ts, ho, h.1.symm⟩
    | pending =>
      simp only [pollAux, ho] at h
      obtain ⟨j, h1, h2, rest⟩ := ih _ _ _ _ _ h
      exact ⟨j, by omega, by omega, rest⟩
    | failed =>
      simp only [pollAux, ho] at h
      obtain ⟨j, h1, h2, rest⟩ := ih _ _ _ _ _ h
      exact ⟨j, by omega, by omega, rest⟩
    | httpError =>
      simp only [pollAux, ho] at h
      obtain ⟨j, h1, h2, rest⟩ := ih _ _ _ _ _ h
      exact ⟨j, by omega, by omega, rest⟩

/-- C10: inside `pollBatchResults`, an attempt that errors — including the
loop's own throw on a `failed` job status — is caught inside the loop body,
counts against the 30-attempt budget, and skips the 2000 ms inter-poll
sleep (only `pending` attempts sleep, as `sleepCount` records);
consequently polling never terminates early because of a `failed` status:
if no attempt completes, the loop runs all 30 attempts and then throws the
timeout error, and a successful exit happens only on a `completed` status
within the budget. -/
theorem pollBatchResults_budget_and_exit (oracle : Nat → PollOutcome) :
    ((∀ i, i < 30 → ∀ ts, oracle i ≠ .completed ts) →
      pollBatchResults oracle = (.error (), 30, sleepCount oracle 0 30)) ∧
    (∀ rs a s, pollBatchResults oracle = (.ok rs, a, s) →
      ∃ j, j < 30 ∧ ∃ ts, oracle j = .completed ts ∧
        rs = ts.map parseResponse) := by
  constructor
  · intro h
    have := pollAux_no_complete oracle 30 0 0 (fun i _ h2 ts => h i (by omega) ts)
    simpa [pollBatchResults] using this
  · intro rs a s h
    obtain ⟨j, _, h2, rest⟩ := pollAux_ok_completed oracle 30 0 0 rs a s h
    exact ⟨j, by omega, rest⟩

/-- Witness for C10: a job that reports `failed` on every poll is polled
the full 30 times with no sleeps and ends in the timeout throw. -/
theorem pollBatchResults_budget_and_exit_witness :
    pollBatchResults (fun _ => PollOutcome.failed) = (.error (), 30, 0) := by
  rw [(pollBatchResults_budget_and_exit (fun _ => PollOutcome.failed)).1
    (fun i _ ts => by simp)]
  rfl

/-! ### C2 -/

/-- C2 counterexample: on the batch path (anthropic provider, two commits)
with a successful batch submission and a poll that never completes within
the 30-attempt budget, `reviewMultipleCommits` does NOT fall back to
sequential per-commit review: it propagates the batch timeout error to the
caller, while the sequential path would have produced one ReviewResult per
commit. -/
theorem batchReview_timeout_counterexample :
    reviewMultipleCommits cfgAnthropic none (fun _ => PollOutcome.pending)
      [itemErr, itemErr] = .error .timeout ∧
    reviewCommitsSequentially cfgAnthropic [itemErr, itemErr] =
      .ok [fallbackJson, fallbackJson] :=
  ⟨rfl, rfl⟩

/-- C2 amended: if the initial batch-create call errors, the orchestrator
falls back to sequential per-commit review immediately, without polling
(the result equals that of `reviewCommitsSequentially`, which never
re-enters batch mode); but when no poll attempt reports `completed` within
the 30-attempt budget (including a job stuck at `failed` status, which
never ends polling early), the timeout error propagates to the caller —
the polling promise is returned without `await`, so the batch catch never
intercepts it and there is no sequential fallback in that case. -/
theorem batchReview_fallback_and_timeout (cfg : Config)
    (pollOracle : Nat → PollOutcome) (items : List ReviewItem) :
    (∀ e : JsErr, batchReviewAnthropic cfg (some e) pollOracle items =
      sequentialLifted cfg items) ∧
    ((∀ i, i < 30 → ∀ ts, pollOracle i ≠ .completed ts) →
      batchReviewAnthropic cfg none pollOracle items = .error .timeout) := by
  constructor
  · intro e; rfl
  · intro h
    have hpoll :=
      pollAux_no_complete pollOracle 30 0 0 (fun i _ h2 ts => h i (by omega) ts)
    simp [batchReviewAnthropic, pollBatchResults, hpoll]

/-- Witness for C2 (amended) at concrete submission/poll outcomes. -/
theorem batchReview_fallback_and_timeout_witness :
    batchReviewAnthropic cfgAnthropic (some (.transport ("boom".toList)))
      (fun _ => PollOutcome.pending) [itemErr] =
      sequentialLifted cfgAnthropic [itemErr] ∧
    batchReviewAnthropic cfgAnthropic none (fun _ => PollOutcome.pending)
      [itemErr] = .error .timeout :=
  ⟨(batchReview_fallback_and_timeout cfgAnthropic _ [itemErr]).1 _,
   (batchReview_fallback_and_timeout cfgAnthropic _ [itemErr]).2
     (fun i _ ts => by simp)⟩

/-! ### Fence-extraction lemmas (used for C4)

These describe how `matchFence` / `splitFirst` / `braceSpan` behave on a
JSON object document `'\x7b' :: M ++ ['\x7d']` that contains no backtick,
wrapped in the two kinds of markdown fence. -/

theorem ticks_eq : ticks = [bt, bt, bt] := rfl

theorem jsonFencePat_eq : jsonFencePat = [bt, bt, bt, 'j', 's', 'o', 'n'] := rfl

theorem startsWith_append (p r : List Char) : startsWith p (p ++ r) = true := by
  induction p with
  | nil => rfl
  | cons c cs ih => simp [startsWith, ih]

theorem startsWith_false_of_head_ne (p c : Char) (ps cs : List Char)
    (h : p ≠ c) : startsWith (p :: ps) (c :: cs) = false := by
  simp [startsWith, h]

theorem startsWith_false_cons (p c : Char) (ps cs : List Char)
    (h : startsWith ps cs = false) : startsWith (p :: ps) (c :: cs) = false := by
  by_cases hpc : p = c <;> simp [startsWith, hpc, h]

/-- A pattern opening with a backtick cannot match at a non-backtick
character. -/
theorem startsWith_btpat_false (pat : List Char) (hp : pat.head? = some bt)
    (c : Char) (hc : c ≠ bt) (s : List Char) :
    startsWith pat (c :: s) = false := by
  cases pat with
  | nil => simp at hp
  | cons p ps =>
    have hpbt : p = bt := by simpa using hp
    subst hpbt
    exact startsWith_false_of_head_ne bt c ps s (fun h => hc h.symm)

theorem splitFirst_ticks_cons_ne (c : Char) (hc : c ≠ bt) (s : List Char) :
    splitFirst ticks (c :: s) =
      (splitFirst ticks s).map (fun p => (c :: p.1, p.2)) := by
  have hsw : startsWith ticks (c :: s) = false :=
    startsWith_btpat_false ticks rfl c hc s
  cases h : splitFirst ticks s with
  | none => simp [splitFirst, hsw, h]
  | some p => simp [splitFirst, hsw, h]

theorem splitFirst_ticks_clean_append (A B : List Char)
    (hA : ∀ c ∈ A, c ≠ bt) :
    splitFirst ticks (A ++ B) =
      (splitFirst ticks B).map (fun p => (A ++ p.1, p.2)) := by
  induction A with
  | nil => cases hB : splitFirst ticks B <;> simp [hB]
  | cons c A' ih =>
    have hc : c ≠ bt := hA c (List.mem_cons_self c A')
    have hA' : ∀ x ∈ A', x ≠ bt := fun x hx => hA x (List.mem_cons_of_mem c hx)
    rw [List.cons_append, splitFirst_ticks_cons_ne c hc (A' ++ B), ih hA']
    cases splitFirst ticks B <;> simp

/-- The first closing fence after a backtick-free prefix `A` is the fence
that immediately follows it. -/
theorem splitFirst_ticks_self_append (A : List Char) (hA : ∀ c ∈ A, c ≠ bt) :
    splitFirst ticks (A ++ ticks) = some (A, []) := by
  rw [splitFirst_ticks_clean_append A ticks hA]
  rw [show splitFirst ticks ticks = some ([], []) from rfl]
  simp

theorem matchFence_cons_no (pat : List Char) (c : Char) (s : List Char)
    (h : startsWith pat (c :: s) = false) :
    matchFence pat (c :: s) = matchFence pat s := by
  simp [matchFence, h]

/-- A fence regex whose pattern opens with a backtick matches nothing in a
backtick-free text. -/
theorem matchFence_none_of_clean (pat : List Char) (hp : pat.head? = some bt) :
    ∀ s : List Char, (∀ c ∈ s, c ≠ bt) → matchFence pat s = none := by
  intro s
  induction s with
  | nil => intro _; rfl
  | cons c s' ih =>
    intro h
    rw [matchFence_cons_no pat c s'
      (startsWith_btpat_false pat hp c (h c (List.mem_cons_self c s')) s')]
    exact ih (fun x hx => h x (List.mem_cons_of_mem c hx))

theorem matchFence_clean_append (pat : List Char) (hp : pat.head? = some bt)
    (A B : List Char) (hA : ∀ c ∈ A, c ≠ bt) :
    matchFence pat (A ++ B) = matchFence pat B := by
  induction A with
  | nil => rfl
  | cons c A' ih =>
    rw [List.cons_append, matchFence_cons_no pat c (A' ++ B)
      (startsWith_btpat_false pat hp c (hA c (List.mem_cons_self c A')) (A' ++ B))]
    exact ih (fun x hx => hA x (List.mem_cons_of_mem c hx))

/-- The fence regex matches at the very start when the text opens with the
pattern and a closing fence exists later: the captured group is the trimmed
interior up to the first closing fence. -/
theorem matchFence_start_some (pat R inner post : List Char) (hpat : pat ≠ [])
    (hsp : splitFirst ticks R = some (inner, post)) :
    matchFence pat (pat ++ R) = some (trimChars inner) := by
  cases pat with
  | nil => exact absurd rfl hpat
  | cons p ps =>
    have hsw : startsWith (p :: ps) ((p :: ps) ++ R) = true := startsWith_append _ _
    have hdrop : ((p :: ps) ++ R).drop (p :: ps).length = R := List.drop_left _ _
    simp only [List.cons_append] at hsw hdrop
    simp [matchFence, hsw, hdrop, hsp]

/-- Every character of a backtick-free JSON object document is not a
backtick. -/
theorem objClean (M : List Char) (hM : ∀ c ∈ M, c ≠ bt) :
    ∀ c ∈ ('\x7b' :: M ++ ['\x7d']), c ≠ bt := by
  intro c hc
  rcases List.mem_cons.mp hc with h | h
  · subst h; decide
  · rcases List.mem_append.mp h with h | h
    · exact hM c h
    · rw [List.mem_singleton.mp h]; decide

/-- The newline-padded interior of the fences is backtick-free as well. -/
theorem innerClean (M : List Char) (hM : ∀ c ∈ M, c ≠ bt) :
    ∀ c ∈ ('\n' :: (('\x7b' :: M ++ ['\x7d']) ++ ['\n'])), c ≠ bt := by
  intro c hc
  rcases List.mem_cons.mp hc with h | h
  · subst h; decide
  · rcases List.mem_append.mp h with h | h
    · exact objClean M hM c h
    · rw [List.mem_singleton.mp h]; decide

/-- The `\s*` groups of the fence regex strip exactly the newline padding
around the document. -/
theorem trimChars_wrap (M : List Char) :
    trimChars ('\n' :: (('\x7b' :: M ++ ['\x7d']) ++ ['\n'])) =
      '\x7b' :: M ++ ['\x7d'] := by
  have h1 : jsWs '\n' = true := rfl
  have h2 : jsWs '\x7b' = false := rfl
  have h3 : jsWs '\x7d' = false := rfl
  simp [trimChars, List.dropWhile_cons, h1, h2, h3, List.reverse_append]

theorem uptoLastBrace_ends (X : List Char) :
    uptoLastBrace (X ++ ['\x7d']) = some (X ++ ['\x7d']) := by
  induction X with
  | nil => rfl
  | cons c X' ih => simp [uptoLastBrace, ih]

/-- The `/\{[\s\S]*\}/` regex captures a whole brace-delimited document. -/
theorem braceSpan_full (M : List Char) :
    braceSpan ('\x7b' :: M ++ ['\x7d']) = some ('\x7b' :: M ++ ['\x7d']) := by
  simp [braceSpan, uptoLastBrace_ends]

/-- Neither fence regex fires on a backtick-free text. -/
theorem cleanFences_clean (s : List Char) (hs : ∀ c ∈ s, c ≠ bt) :
    cleanFences s = s := by
  simp [cleanFences, matchFence_none_of_clean jsonFencePat rfl s hs,
    matchFence_none_of_clean ticks rfl s hs]

/-- Stripping the fences of a ```` ```json ```` wrapped backtick-free
document returns exactly the document. -/
theorem cleanFences_jsonWrap (M : List Char) (hM : ∀ c ∈ M, c ≠ bt) :
    cleanFences (wrapJsonFence ('\x7b' :: M ++ ['\x7d'])) =
      '\x7b' :: M ++ ['\x7d'] := by
  have hassoc : ('\n' :: (('\x7b' :: M ++ ['\x7d']) ++ '\n' :: ticks)) =
      ('\n' :: (('\x7b' :: M ++ ['\x7d']) ++ ['\n'])) ++ ticks := by
    simp
  have hsp : splitFirst ticks
      ('\n' :: (('\x7b' :: M ++ ['\x7d']) ++ '\n' :: ticks)) =
      some ('\n' :: (('\x7b' :: M ++ ['\x7d']) ++ ['\n']), []) := by
    rw [hassoc]
    exact splitFirst_ticks_self_append _ (innerClean M hM)
  have hm1 : matchFence jsonFencePat
      (wrapJsonFence ('\x7b' :: M ++ ['\x7d'])) =
      some ('\x7b' :: M ++ ['\x7d']) := by
    have := matchFence_start_some jsonFencePat
      ('\n' :: (('\x7b' :: M ++ ['\x7d']) ++ '\n' :: ticks))
      ('\n' :: (('\x7b' :: M ++ ['\x7d']) ++ ['\n'])) [] (by simp [jsonFencePat_eq]) hsp
    rw [trimChars_wrap] at this
    rw [show wrapJsonFence ('\x7b' :: M ++ ['\x7d']) =
      jsonFencePat ++ ('\n' :: (('\x7b' :: M ++ ['\x7d']) ++ '\n' :: ticks))
      from by simp [wrapJsonFence]]
    exact this
  have hm2 : matchFence ticks ('\x7b' :: M ++ ['\x7d']) = none :=
    matchFence_none_of_clean ticks rfl _ (objClean M hM)
  simp only [cleanFences]
  rw [hm1]
  simp only [hm2]

/-- Stripping the fences of a plain ```` ``` ```` wrapped backtick-free
document returns exactly the document: the `json`-tagged regex does not
fire, the plain one does. -/
theorem cleanFences_plainWrap (M : List Char) (hM : ∀ c ∈ M, c ≠ bt) :
    cleanFences (wrapPlainFence ('\x7b' :: M ++ ['\x7d'])) =
      '\x7b' :: M ++ ['\x7d'] := by
  have hassoc : ('\n' :: (('\x7b' :: M ++ ['\x7d']) ++ '\n' :: ticks)) =
      ('\n' :: (('\x7b' :: M ++ ['\x7d']) ++ ['\n'])) ++ ticks := by
    simp
  have hsp : splitFirst ticks
      ('\n' :: (('\x7b' :: M ++ ['\x7d']) ++ '\n' :: ticks)) =
      some ('\n' :: (('\x7b' :: M ++ ['\x7d']) ++ ['\n']), []) := by
    rw [hassoc]
    exact splitFirst_ticks_self_append _ (innerClean M hM)
  have hw2 : wrapPlainFence ('\x7b' :: M ++ ['\x7d']) =
      bt :: bt :: bt :: '\n' :: (('\x7b' :: M ++ ['\x7d']) ++ '\n' :: ticks) := by
    simp [wrapPlainFence, ticks_eq]
  have hm1 : matchFence jsonFencePat
      (wrapPlainFence ('\x7b' :: M ++ ['\x7d'])) = none := by
    rw [hw2]
    rw [matchFence_cons_no _ _ _ (by
      rw [jsonFencePat_eq]
      exact startsWith_false_cons _ _ _ _ (startsWith_false_cons _ _ _ _
        (startsWith_false_cons _ _ _ _
          (startsWith_false_of_head_ne _ _ _ _ (by decide)))))]
    rw [matchFence_cons_no _ _ _ (by
      rw [jsonFencePat_eq]
      exact startsWith_false_cons _ _ _ _ (startsWith_false_cons _ _ _ _
        (startsWith_false_of_head_ne _ _ _ _ (by decide))))]
    rw [matchFence_cons_no _ _ _ (by
      rw [jsonFencePat_eq]
      exact startsWith_false_cons _ _ _ _
        (startsWith_false_of_head_ne _ _ _ _ (by decide)))]
    rw [show ('\n' :: (('\x7b' :: M ++ ['\x7d']) ++ '\n' :: ticks)) =
      ('\n' :: (('\x7b' :: M ++ ['\x7d']) ++ ['\n'])) ++ ticks from by simp]
    rw [matchFence_clean_append jsonFencePat rfl _ ticks (innerClean M hM)]
    rfl
  have hm2 : matchFence ticks (wrapPlainFence ('\x7b' :: M ++ ['\x7d'])) =
      some ('\x7b' :: M ++ ['\x7d']) := by
    have := matchFence_start_some ticks
      ('\n' :: (('\x7b' :: M ++ ['\x7d']) ++ '\n' :: ticks))
      ('\n' :: (('\x7b' :: M ++ ['\x7d']) ++ ['\n'])) [] (by simp [ticks_eq]) hsp
    rw [trimChars_wrap] at this
    rw [show wrapPlainFence ('\x7b' :: M ++ ['\x7d']) =
      ticks ++ ('\n' :: (('\x7b' :: M ++ ['\x7d']) ++ '\n' :: ticks))
      from by simp [wrapPlainFence]]
    exact this
  simp only [cleanFences]
  rw [hm1]
  simp only [hm2]

/-! ### C4 -/

/-- C4 counterexample: the three-way agreement fails for the JSON object
document `{"a":"```"}` (legal JSON whose string value contains a fence):
raw it parses to the object, but wrapped in a ```` ```json ```` fence the
lazy fence regex closes at the backticks inside the string, the remaining
text has no brace span, and `parseResponse` degrades to the fallback — a
different result.  (`topMemberCount` separates the two values: 1 ≠ 9.) -/
theorem parseResponse_fence_counterexample :
    parseResponse ("\x7b\"a\":\"```\"\x7d".toList) =
      Json.obj [("a".toList, Json.str ("```".toList))] ∧
    parseResponse (wrapJsonFence ("\x7b\"a\":\"```\"\x7d".toList)) =
      fallbackJson ∧
    (Json.obj [("a".toList, Json.str ("```".toList))]).topMemberCount ≠
      fallbackJson.topMemberCount :=
  ⟨rfl, rfl, by decide⟩

/-- C4 amended: `parseResponse` applies its extraction steps in order —
`json`-tagged fence, then any fence, then the greedy first-brace-to-last-
brace substring; the trimmed whole text is parsed only when no brace span
exists at all (a failed brace-span parse yields the fallback directly, see
the counterexample for C4); consequently, for every JSON object document
`J` (brace-delimited and containing no backticks, so that the lazy fence
regex is not derailed), `J` wrapped in a ```` ```json ```` fence, `J`
wrapped in a plain ```` ``` ```` fence, and `J` raw all parse to the same
value. -/
theorem parseResponse_fence_agreement (M : List Char) (v : Json)
    (hM : ∀ c ∈ M, c ≠ bt)
    (hv : jsonParse ('\x7b' :: M ++ ['\x7d']) = some v) :
    parseResponse ('\x7b' :: M ++ ['\x7d']) = v ∧
    parseResponse (wrapJsonFence ('\x7b' :: M ++ ['\x7d'])) = v ∧
    parseResponse (wrapPlainFence ('\x7b' :: M ++ ['\x7d'])) = v := by
  refine ⟨?_, ?_, ?_⟩
  · unfold parseResponse
    rw [cleanFences_clean _ (objClean M hM), braceSpan_full M]
    simp only [hv]
  · unfold parseResponse
    rw [cleanFences_jsonWrap M hM, braceSpan_full M]
    simp only [hv]
  · unfold parseResponse
    rw [cleanFences_plainWrap M hM, braceSpan_full M]
    simp only [hv]

/-- Witness for C4 (amended) at the concrete document
`{"score":9,"summary":"ok"}`. -/
theorem parseResponse_fence_agreement_witness :
    parseResponse ('\x7b' :: ("\"score\":9,\"summary\":\"ok\"".toList) ++ ['\x7d']) =
      Json.obj [("score".toList, Json.num ['9']),
        ("summary".toList, Json.str ("ok".toList))] ∧
    parseResponse (wrapJsonFence
      ('\x7b' :: ("\"score\":9,\"summary\":\"ok\"".toList) ++ ['\x7d'])) =
      Json.obj [("score".toList, Json.num ['9']),
        ("summary".toList, Json.str ("ok".toList))] ∧
    parseResponse (wrapPlainFence
      ('\x7b' :: ("\"score\":9,\"summary\":\"ok\"".toList) ++ ['\x7d'])) =
      Json.obj [("score".toList, Json.num ['9']),
        ("summary".toList, Json.str ("ok".toList))] :=
  parseResponse_fence_agreement ("\"score\":9,\"summary\":\"ok\"".toList)
    (Json.obj [("score".toList, Json.num ['9']),
      ("summary".toList, Json.str ("ok".toList))])
    (by decide) rfl

/-! ### C5 -/

/-- C5: `reviewMultipleCommits` uses the sequential path whenever the
provider is not the batch-capable `anthropic` or the commit count is at
most 1; the sequential path collects, in input order, one result per
commit (`result[i]` is the `reviewCode` outcome of `commits[i]`, so the
output has the input's length); and the batch path maps the provider's
completed results position-wise through `parseResponse`. -/
theorem reviewMultipleCommits_order_preserving (cfg : Config) :
    (∀ (submitErr : Option JsErr) (pollOracle : Nat → PollOutcome)
      (items : List ReviewItem),
      (providerOf cfg ≠ anthropicName ∨ items.length ≤ 1) →
      reviewMultipleCommits cfg submitErr pollOracle items =
        sequentialLifted cfg items) ∧
    (∀ (items : List ReviewItem) (rs : List Json),
      List.Forall₂ (fun it v => reviewOne cfg it = .ok v) items rs →
      reviewCommitsSequentially cfg items = .ok rs ∧
        rs.length = items.length) ∧
    (∀ (pollOracle : Nat → PollOutcome) (items : List ReviewItem)
      (texts : List (List Char)),
      providerOf cfg = anthropicName → 1 < items.length →
      pollOracle 0 = .completed texts →
      reviewMultipleCommits cfg none pollOracle items =
        .ok (texts.map parseResponse)) := by
  refine ⟨?_, ?_, ?_⟩
  · intro se po items h
    have hcond : (providerOf cfg == anthropicName
        && decide (1 < items.length)) = false := by
      rcases h with h | h
      · have hb : (providerOf cfg == anthropicName) = false :=
          beq_eq_false_iff_ne.mpr h
        simp [hb]
      · have hd : decide (1 < items.length) = false := decide_eq_false (by omega)
        simp [hd]
    simp [reviewMultipleCommits, hcond]
  · intro items rs h
    constructor
    · induction h with
      | nil => rfl
      | cons ha htail ih => simp [reviewCommitsSequentially, reviewOne] at ha ⊢; simp [ha, ih]
    · exact (List.Forall₂.length_eq h).symm
  · intro po items texts hp hl hc
    have hcond : (providerOf cfg == anthropicName
        && decide (1 < items.length)) = true := by
      simp [hp, hl]
    have hpoll : pollAux po 30 0 0 = (.ok (texts.map parseResponse), 1, 0) := by
      rw [show (30 : Nat) = 29 + 1 from rfl]
      simp [pollAux, hc]
    simp [reviewMultipleCommits, hcond, batchReviewAnthropic,
      pollBatchResults, hpoll]

/-- Witness for C5 at concrete routing and sequential runs. -/
theorem reviewMultipleCommits_order_preserving_witness :
    reviewMultipleCommits cfgOpenAI none (fun _ => PollOutcome.pending)
      [itemErr, itemErr] = sequentialLifted cfgOpenAI [itemErr, itemErr] ∧
    reviewCommitsSequentially cfgOpenAI [itemErr] = .ok [fallbackJson] :=
  ⟨(reviewMultipleCommits_order_preserving cfgOpenAI).1 none _ _
      (Or.inl (by decide)),
   ((reviewMultipleCommits_order_preserving cfgOpenAI).2.1 [itemErr]
      [fallbackJson] (List.Forall₂.cons rfl List.Forall₂.nil)).1⟩

end AiCodeReviewer
